import Mathlib

/-!
# Extrinsic payload encoding and signing (`types/extrinsic_payload.go`)

A shallow embedding of the payload types of the client, of the SCALE encoder they
are written to, and of `Sign` and `Decode`, followed by the properties of the
byte sequence that gets signed.

A Go function that returns `error` after writing to the encoder is a function from
the encoder to the encoder it leaves behind paired with `Option Error`
(`none` is Go's `nil`).
-/

namespace Gsrpc

/-- One octet, kept as a natural number. -/
abbrev Byte := Nat

/-- Go `error` value (non-nil). -/
structure Error where
  msg : String
deriving DecidableEq, Repr

/-! ## scale.Encoder -/

/-- Modelled from the spec: `scale.Encoder` (package `scale` is absent from the
sources). It wraps an `io.Writer`: a writer state `writer` and its `Write`
method `wr`, which may fail. -/
structure Encoder (W : Type) where
  wr : W → List Byte → W × Option Error
  writer : W

/-- Outcome of an encoding step: the encoder afterwards and the returned error. -/
abbrev Step (W : Type) := Encoder W × Option Error

/-- Go idiom `err := step; if err != nil { return err }; rest`. -/
def andThen {W : Type} (r : Step W) (rest : Encoder W → Step W) : Step W :=
  match r.2 with
  | some err => (r.1, some err)
  | none => rest r.1

/-- Modelled from the spec: `Encoder.Write`, handing raw bytes to the writer (§4.1). -/
def Encoder.Write {W : Type} (pe : Encoder W) (bytes : List Byte) : Step W :=
  (⟨pe.wr, (pe.wr pe.writer bytes).1⟩, (pe.wr pe.writer bytes).2)

/-- Modelled from the spec: `Encoder.PushByte`, a one-byte write. -/
def Encoder.PushByte {W : Type} (pe : Encoder W) (b : Byte) : Step W :=
  pe.Write [b]

/-- Exactly `width` little-endian bytes of `v` (low `width` bytes). -/
def fixedLE : Nat → Nat → List Byte
  | 0, _ => []
  | width + 1, v => (v % 256) :: fixedLE width (v / 256)

/-- Little-endian bytes of `v` without leading zero bytes, at most `fuel` of them. -/
def leBytes : Nat → Nat → List Byte
  | 0, _ => []
  | fuel + 1, v => if v = 0 then [] else (v % 256) :: leBytes fuel (v / 256)

/-- Modelled from the spec: `encodeFixed(width, value)` of §4.1 (absent from the
sources): exactly `width` little-endian bytes, failing when the value exceeds the
range of `width` bytes. -/
def Encoder.EncodeFixed {W : Type} (pe : Encoder W) (width v : Nat) : Step W :=
  if v < 256 ^ width then pe.Write (fixedLE width v)
  else (pe, some ⟨"EncodeOverflow"⟩)

/-- Modelled from the spec: the compact integer encoder of §3/§4.1 (absent from
the sources). The two low bits of the first byte give the width: `00` one byte,
`01` two bytes, `10` four bytes, `11` a byte count (minus four, in the upper six
bits) followed by that many little-endian bytes. A value needing more than
`63 + 4` bytes does not fit the count and is an overflow. -/
def Encoder.EncodeUintCompact {W : Type} (pe : Encoder W) (v : Nat) : Step W :=
  if v < 2 ^ 6 then pe.PushByte (v * 4)
  else if v < 2 ^ 14 then pe.Write (fixedLE 2 (v * 4 + 1))
  else if v < 2 ^ 30 then pe.Write (fixedLE 4 (v * 4 + 2))
  else if v < 256 ^ 67 then
    andThen (pe.PushByte (((leBytes 67 v).length - 4) * 4 + 3)) fun pe =>
    pe.Write (leBytes 67 v)
  else (pe, some ⟨"EncodeOverflow"⟩)

/-- Modelled from the spec: `encodeOption(present, value)` of §4.2 (absent from the
sources): the presence byte, then the value only if present. -/
def Encoder.EncodeOption {W : Type} (pe : Encoder W) (hasValue : Bool)
    (value : Encoder W → Step W) : Step W :=
  if hasValue then
    andThen (pe.PushByte 1) fun pe =>
    value pe
  else
    pe.PushByte 0

/-! ## Field types (declared outside `extrinsic_payload.go`) -/

/-- Modelled from the spec: `BytesBare`, raw bytes encoded without a length (§4.1). -/
abbrev BytesBare := List Byte

/-- Modelled from the spec: `UCompact`, an unsigned integer encoded compactly. -/
abbrev UCompact := Nat

/-- Modelled from the spec: `U32`, encoded as four little-endian bytes. -/
abbrev U32 := Nat

/-- Modelled from the spec: `Hash`, a 32-byte array. -/
structure Hash where
  bytes : List Byte
  size : bytes.length = 32

/-- `MortalEra` as it appears in the fixture of `submit_extrinsic_test.go`. -/
structure MortalEra where
  First : Byte
  Second : Byte

/-- `ExtrinsicEra` as it appears in the fixture of `submit_extrinsic_test.go`. -/
structure ExtrinsicEra where
  IsImmortalEra : Bool
  IsMortalEra : Bool
  AsMortalEra : MortalEra

/-- Modelled from the spec: `encodeBytesBare(buf) -> buf`, no length in front. -/
def BytesBare.Encode {W : Type} (b : BytesBare) (encoder : Encoder W) : Step W :=
  encoder.Write b

/-- Modelled from the spec: the encoding of `UCompact` is the compact integer. -/
def UCompact.Encode {W : Type} (u : UCompact) (encoder : Encoder W) : Step W :=
  encoder.EncodeUintCompact u

/-- Modelled from the spec: `fixed32`. -/
def U32.Encode {W : Type} (u : U32) (encoder : Encoder W) : Step W :=
  encoder.EncodeFixed 4 u

/-- Modelled from the spec: `hash32`, the bytes of the array in order. -/
def Hash.Encode {W : Type} (h : Hash) (encoder : Encoder W) : Step W :=
  encoder.Write h.bytes

/-- Modelled from the spec: the era encoding of §3: immortal is the single zero
byte, mortal is its two packed bytes. -/
def ExtrinsicEra.Encode {W : Type} (e : ExtrinsicEra) (encoder : Encoder W) : Step W :=
  if e.IsImmortalEra then encoder.PushByte 0
  else
    andThen (encoder.PushByte e.AsMortalEra.First) fun encoder =>
    encoder.PushByte e.AsMortalEra.Second

/-! ## `types/extrinsic_payload.go` -/

/-- `FeeExchangeV1` (lines 53-56). -/
structure FeeExchangeV1 where
  AssetId : UCompact
  MaxPayment : UCompact

/-- `OptionFeeExchange` (lines 49-52). -/
structure OptionFeeExchange where
  HasValue : Bool
  FeeExchange : FeeExchangeV1

/-- `TransactionPayment` (lines 44-47). -/
structure TransactionPayment where
  Tip : UCompact
  FeeExchange : OptionFeeExchange

/-- `ExtrinsicPayloadV1` (lines 31-42). -/
structure ExtrinsicPayloadV1 where
  Method : BytesBare
  Era : ExtrinsicEra
  Nonce : UCompact
  TransactionPayment : TransactionPayment
  SpecVersion : U32
  TransactionVersion : U32
  GenesisHash : Hash
  BlockHash : Hash

/-- `func (fe FeeExchangeV1) Encode(encoder scale.Encoder) error` (lines 58-75). -/
def FeeExchangeV1.Encode {W : Type} (fe : FeeExchangeV1) (encoder : Encoder W) : Step W :=
  andThen (encoder.PushByte 0) fun encoder =>
  andThen (UCompact.Encode fe.AssetId encoder) fun encoder =>
  andThen (UCompact.Encode fe.MaxPayment encoder) fun encoder =>
  (encoder, none)

/-- `func (fe OptionFeeExchange) Encode(encoder scale.Encoder) error` (lines 77-84). -/
def OptionFeeExchange.Encode {W : Type} (fe : OptionFeeExchange) (encoder : Encoder W) :
    Step W :=
  andThen (encoder.EncodeOption fe.HasValue fe.FeeExchange.Encode) fun encoder =>
  (encoder, none)

/-- Modelled from the spec: `scale.Encoder.Encode` on `TransactionPayment`, a struct
without an `Encode` method: the composite codec of §4.3, each field in declared
order, stopping at the first error. -/
def TransactionPayment.Encode {W : Type} (tp : TransactionPayment) (encoder : Encoder W) :
    Step W :=
  andThen (UCompact.Encode tp.Tip encoder) fun encoder =>
  andThen (tp.FeeExchange.Encode encoder) fun encoder =>
  (encoder, none)

/-- Modelled from the spec: `scale.Encoder.Encode` on `ExtrinsicPayloadV1`, whose own
`Encode` (lines 103-145) is commented out: the composite codec of §4.3 over the
fields in declared order, the same sequence the commented-out method spells out. -/
def ExtrinsicPayloadV1.Encode {W : Type} (e : ExtrinsicPayloadV1) (encoder : Encoder W) :
    Step W :=
  andThen (BytesBare.Encode e.Method encoder) fun encoder =>
  andThen (e.Era.Encode encoder) fun encoder =>
  andThen (UCompact.Encode e.Nonce encoder) fun encoder =>
  andThen (e.TransactionPayment.Encode encoder) fun encoder =>
  andThen (U32.Encode e.SpecVersion encoder) fun encoder =>
  andThen (U32.Encode e.TransactionVersion encoder) fun encoder =>
  andThen (e.GenesisHash.Encode encoder) fun encoder =>
  andThen (e.BlockHash.Encode encoder) fun encoder =>
  (encoder, none)

/-! ## Encoding into a fresh in-memory buffer -/

/-- `Write` of an in-memory byte buffer: appends and never fails. -/
def bufWrite (buffer : List Byte) (bytes : List Byte) : List Byte × Option Error :=
  (buffer ++ bytes, none)

/-- `scale.NewEncoder(&buffer)` over an in-memory buffer. -/
def NewEncoder (buffer : List Byte) : Encoder (List Byte) :=
  ⟨bufWrite, buffer⟩

/-- Modelled from the spec: `EncodeToBytes` (absent from the sources): encode the
value into a fresh buffer; an encode-time error is returned with no output (§7). -/
def EncodeToBytes (value : Encoder (List Byte) → Step (List Byte)) :
    Except Error (List Byte) :=
  match (value (NewEncoder [])).2 with
  | some err => .error err
  | none => .ok (value (NewEncoder [])).1.writer

/-- Modelled from the spec: `encodeBytesPrefixed(buf) -> compact(len(buf)) ++ buf`
(§4.1), the encoding of a Go byte slice. The spec leaves the width of `len(buf)` open;
it is read here as Go's `len` converted to a 64-bit machine integer, hence modulo
`2 ^ 64`. No limit on the number of elements is modelled. -/
def Encoder.EncodeBytes {W : Type} (pe : Encoder W) (b : List Byte) : Step W :=
  andThen (pe.EncodeUintCompact (b.length % 2 ^ 64)) fun pe =>
  pe.Write b

/-- Two lowercase hex digits of a byte. -/
def hexByte (b : Byte) : List Char :=
  [Nat.digitChar (b / 16 % 16), Nat.digitChar (b % 16)]

/-- Modelled from the spec: `EncodeToHexString` on a byte slice (absent from the
sources): the encoded bytes rendered as lowercase hex behind `0x` (§6). -/
def EncodeToHexString (b : List Byte) : Except Error String :=
  match EncodeToBytes (fun pe => pe.EncodeBytes b) with
  | .error err => .error err
  | .ok bz => .ok ("0x" ++ String.mk (bz.flatMap hexByte))

/-! ## Sign and Decode -/

/-- Modelled from the spec: `signature.KeyringPair`; `Sign` reads its `URI` only. -/
structure KeyringPair where
  URI : String

/-- Modelled from the spec: `Signature`, the 64-byte array of the test fixture. -/
abbrev Signature := List Byte

/-- `Signature{}`, the zero value. -/
def Signature.zero : Signature := List.replicate 64 0

/-- Modelled from the spec: `NewSignature`, the raw bytes placed in a `Signature`
(copied into the 64-byte array: cut after 64 bytes, zero-filled below 64). -/
def NewSignature (b : List Byte) : Signature :=
  (b ++ List.replicate 64 0).take 64

/-- What `Sign` does to the outside world, in order. -/
inductive Effect where
  | println (line : String)
  | sign (data : List Byte) (privateKeyURI : String)

/-- How a call of `Sign` ends. -/
inductive SignResult where
  | returned (sig : Signature) (err : Option Error)
  | panicked (err : Error)

/-- The `(data, privateKeyURI)` arguments of the invocations of the signing primitive. -/
def signCalls : List Effect → List (List Byte × String)
  | [] => []
  | Effect.println _ :: rest => signCalls rest
  | Effect.sign data uri :: rest => (data, uri) :: signCalls rest

/-- `func (e ExtrinsicPayloadV1) Sign(signer signature.KeyringPair) (Signature, error)`
(lines 87-101). The external primitive `signature.Sign` is the parameter
`signatureSign`, returning Go's pair `([]byte, error)`. -/
def ExtrinsicPayloadV1.Sign (signatureSign : List Byte → String → List Byte × Option Error)
    (e : ExtrinsicPayloadV1) (signer : KeyringPair) : SignResult × List Effect :=
  match EncodeToBytes e.Encode with
  | .error err => (.returned Signature.zero (some err), [])
  | .ok b =>
    match EncodeToHexString b with
    | .error err => (.panicked err, [])
    | .ok hex =>
      (.returned (NewSignature (signatureSign b signer.URI).1) (signatureSign b signer.URI).2,
        [.println ("BUF " ++ hex), .sign b signer.URI])

/-- Modelled from the spec: `scale.Decoder`, the bytes still to be read. -/
structure Decoder where
  reader : List Byte

/-- `func (e *ExtrinsicPayloadV1) Decode(decoder scale.Decoder) error` (lines 148-150):
the receiver and the decoder after the call, and the returned error. -/
def ExtrinsicPayloadV1.Decode (e : ExtrinsicPayloadV1) (decoder : Decoder) :
    (ExtrinsicPayloadV1 × Decoder) × Option Error :=
  ((e, decoder), some ⟨"decoding of ExtrinsicPayloadV1 is not supported"⟩)

/-! ## The signed extrinsic (declared outside `extrinsic_payload.go`) -/

/-- Modelled from the spec: the discriminant bytes of the tagged types (§4.2), a fixed
table defined by the runtime of the chain and absent from the sources. -/
structure Discriminants where
  accountID : Byte
  accountIndex : Byte
  sr25519 : Byte

/-- `Address` as it appears in the fixture of `submit_extrinsic_test.go`. -/
structure Address where
  IsAccountID : Bool
  AsAccountID : List Byte
  IsAccountIndex : Bool
  AsAccountIndex : Nat

/-- `MultiSignature` as it appears in the fixture of `submit_extrinsic_test.go`. -/
structure MultiSignature where
  IsSr25519 : Bool
  AsSr25519 : Signature

/-- `ExtrinsicSignatureV1` as it appears in the fixture of `submit_extrinsic_test.go`. -/
structure ExtrinsicSignatureV1 where
  Signer : Address
  Signature : MultiSignature
  Era : ExtrinsicEra
  Nonce : UCompact
  TransactionPayment : TransactionPayment

/-- `CallIndex` as it appears in the fixture of `submit_extrinsic_test.go`. -/
structure CallIndex where
  SectionIndex : Byte
  MethodIndex : Byte

/-- `Call` as it appears in the fixture of `submit_extrinsic_test.go`. -/
structure Call where
  CallIndex : CallIndex
  Args : List Byte

/-- `Extrinsic` as it appears in the fixture of `submit_extrinsic_test.go`. -/
structure Extrinsic where
  Version : Byte
  Signature : ExtrinsicSignatureV1
  Method : Call

/-- Modelled from the spec: the address encoding of §3 (absent from the sources): the
discriminant of the active variant, then that variant only, the 32-byte account id
or the compact account index. -/
def Address.Encode {W : Type} (tags : Discriminants) (a : Address) (encoder : Encoder W) :
    Step W :=
  if a.IsAccountID then
    andThen (encoder.PushByte tags.accountID) fun encoder =>
    encoder.Write a.AsAccountID
  else
    andThen (encoder.PushByte tags.accountIndex) fun encoder =>
    encoder.EncodeUintCompact a.AsAccountIndex

/-- Modelled from the spec: the signature encoding of §3 (absent from the sources):
the discriminant of the scheme, then its fixed-size bytes. The sources show the
sr25519 scheme only; a value with no scheme set is refused. -/
def MultiSignature.Encode {W : Type} (tags : Discriminants) (m : MultiSignature)
    (encoder : Encoder W) : Step W :=
  if m.IsSr25519 then
    andThen (encoder.PushByte tags.sr25519) fun encoder =>
    encoder.Write m.AsSr25519
  else (encoder, some ⟨"no signature scheme set"⟩)

/-- Modelled from the spec: the composite codec of §4.3 on `ExtrinsicSignatureV1`,
each field in declared order. -/
def ExtrinsicSignatureV1.Encode {W : Type} (tags : Discriminants) (s : ExtrinsicSignatureV1)
    (encoder : Encoder W) : Step W :=
  andThen (s.Signer.Encode tags encoder) fun encoder =>
  andThen (s.Signature.Encode tags encoder) fun encoder =>
  andThen (s.Era.Encode encoder) fun encoder =>
  andThen (UCompact.Encode s.Nonce encoder) fun encoder =>
  andThen (s.TransactionPayment.Encode encoder) fun encoder =>
  (encoder, none)

/-- Modelled from the spec: the call encoding of §3 (absent from the sources): the two
bytes of the call index, then the argument bytes verbatim. -/
def Call.Encode {W : Type} (c : Call) (encoder : Encoder W) : Step W :=
  andThen (encoder.PushByte c.CallIndex.SectionIndex) fun encoder =>
  andThen (encoder.PushByte c.CallIndex.MethodIndex) fun encoder =>
  encoder.Write c.Args

/-- Modelled from the spec: what `assemble` of §4.6 produces before the length is put
in front: the version byte, the signature block, the call. -/
def Extrinsic.encodeBody {W : Type} (tags : Discriminants) (e : Extrinsic)
    (encoder : Encoder W) : Step W :=
  andThen (encoder.PushByte e.Version) fun encoder =>
  andThen (e.Signature.Encode tags encoder) fun encoder =>
  andThen (e.Method.Encode encoder) fun encoder =>
  (encoder, none)

/-- Modelled from the spec: `assemble` of §4.6 (absent from the sources): the signed
extrinsic encoded on its own, then written behind the compact encoding of its total
length. These are the bytes handed to submission. -/
def Extrinsic.Encode {W : Type} (tags : Discriminants) (e : Extrinsic) (encoder : Encoder W) :
    Step W :=
  match EncodeToBytes (e.encodeBody tags) with
  | .error err => (encoder, some err)
  | .ok body =>
    andThen (encoder.EncodeUintCompact body.length) fun encoder =>
    encoder.Write body

/-! ## Helpers for stating and checking the results -/

/-- Equality of encoding results is decidable. -/
instance instDecidableEqResult : DecidableEq (Except Error (List Byte))
  | .ok a, .ok b =>
    if h : a = b then isTrue (by rw [h]) else isFalse (fun h2 => h (Except.ok.inj h2))
  | .error a, .error b =>
    if h : a = b then isTrue (by rw [h]) else isFalse (fun h2 => h (Except.error.inj h2))
  | .ok _, .error _ => isFalse (fun h => by cases h)
  | .error _, .ok _ => isFalse (fun h => by cases h)

/-- On an in-memory buffer the step `f` appends exactly `out` to whatever the buffer
held and returns `err`. -/
def Emits (f : Encoder (List Byte) → Step (List Byte)) (out : List Byte)
    (err : Option Error) : Prop :=
  ∀ pre : List Byte, f (NewEncoder pre) = (NewEncoder (pre ++ out), err)

/-- The all-zero hash. -/
def zeroHash : Hash := ⟨List.replicate 32 0, by decide⟩

/-- The payload matching the fixture of `TestAuthor_SubmitExtrinsic`: call index
`(0x06, 0x00)`, immortal era, nonce 1, tip 0, no fee exchange. -/
def fixturePayload : ExtrinsicPayloadV1 :=
  { Method := [6, 0, 255, 142, 175]
    Era := ⟨true, false, ⟨0, 0⟩⟩
    Nonce := 1
    TransactionPayment := ⟨0, ⟨false, ⟨0, 0⟩⟩⟩
    SpecVersion := 36
    TransactionVersion := 5
    GenesisHash := zeroHash
    BlockHash := zeroHash }

/-- A key pair used to exercise `Sign`. -/
def aliceKey : KeyringPair := ⟨"//Alice"⟩

/-- The fixture payload with one byte of the call argument changed. -/
def fixturePayloadAltered : ExtrinsicPayloadV1 :=
  { fixturePayload with Method := [6, 0, 255, 143, 175] }

/-- A signing primitive that always succeeds with the 64 bytes `07 07 ...`. -/
def constSigner (_data : List Byte) (_uri : String) : List Byte × Option Error :=
  (List.replicate 64 7, none)

/-- A signing primitive that always fails. -/
def failingSigner (_data : List Byte) (_uri : String) : List Byte × Option Error :=
  ([], some ⟨"invalid derivation path"⟩)

/-- The extrinsic of `TestAuthor_SubmitExtrinsic`. -/
def fixtureExtrinsic : Extrinsic :=
  { Version := 132
    Signature :=
      { Signer :=
          { IsAccountID := true
            AsAccountID :=
              [212, 53, 147, 199, 21, 253, 211, 28, 97, 20, 26, 189, 4, 169, 159, 214, 130,
               44, 133, 88, 133, 76, 205, 227, 154, 86, 132, 231, 165, 109, 162, 125]
            IsAccountIndex := false
            AsAccountIndex := 0 }
        Signature :=
          { IsSr25519 := true
            AsSr25519 :=
              [192, 66, 25, 95, 147, 37, 13, 62, 218, 162, 228, 164, 45, 207, 78, 65, 193,
               108, 167, 28, 252, 58, 43, 35, 153, 138, 212, 236, 151, 79, 139, 26, 205,
               205, 173, 151, 209, 75, 109, 245, 203, 137, 6, 255, 97, 200, 146, 23, 150,
               84, 165, 236, 204, 11, 102, 133, 246, 193, 127, 237, 73, 33, 148, 0] }
        Era := ⟨true, false, ⟨0, 0⟩⟩
        Nonce := 1
        TransactionPayment := ⟨0, ⟨false, ⟨0, 0⟩⟩⟩ }
    Method :=
      { CallIndex := ⟨6, 0⟩
        Args :=
          [255, 142, 175, 4, 21, 22, 135, 115, 99, 38, 201, 254, 161, 126, 37, 252, 82,
           135, 97, 54, 147, 201, 18, 144, 156, 178, 38, 170, 71, 148, 242, 106, 72, 229,
           108] } }

/-- A discriminant table used to exercise the assembler. -/
def sampleTags : Discriminants := ⟨255, 1, 1⟩

/-- A payload whose nonce does not fit the compact encoding. -/
def overflowPayload : ExtrinsicPayloadV1 :=
  { fixturePayload with Nonce := 256 ^ 67 }

/-- A writer that records every chunk handed to it and accepts the first `n` writes
only. -/
def failAfter (n : Nat) (log : List (List Byte)) (bytes : List Byte) :
    List (List Byte) × Option Error :=
  (log ++ [bytes], if log.length < n then none else some ⟨"short write"⟩)

/-! ## Lemmas on the in-memory encoder -/

theorem emits_Write (bytes : List Byte) : Emits (fun pe => pe.Write bytes) bytes none := by
  intro pre
  rfl

theorem emits_PushByte (b : Byte) : Emits (fun pe => pe.PushByte b) [b] none := by
  intro pre
  rfl

theorem emits_andThen_ok {f g : Encoder (List Byte) → Step (List Byte)}
    {o1 o2 : List Byte} {err : Option Error}
    (hf : Emits f o1 none) (hg : Emits g o2 err) :
    Emits (fun pe => andThen (f pe) g) (o1 ++ o2) err := by
  intro pre
  simp only [andThen, hf pre, hg (pre ++ o1), List.append_assoc]

theorem emits_andThen_err {f g : Encoder (List Byte) → Step (List Byte)}
    {o1 : List Byte} {e : Error} (hf : Emits f o1 (some e)) :
    Emits (fun pe => andThen (f pe) g) o1 (some e) := by
  intro pre
  simp only [andThen, hf pre]

theorem emits_done : Emits (fun pe => (pe, none)) [] none := by
  intro pre
  simp [NewEncoder]

theorem emits_fail (e : Error) : Emits (fun pe => (pe, some e)) [] (some e) := by
  intro pre
  simp [NewEncoder]

/-- A step that emits, sequenced with one that emits, emits. -/
theorem emits_andThen {f g : Encoder (List Byte) → Step (List Byte)}
    (hf : ∃ out err, Emits f out err) (hg : ∃ out err, Emits g out err) :
    ∃ out err, Emits (fun pe => andThen (f pe) g) out err := by
  obtain ⟨o1, e1, h1⟩ := hf
  obtain ⟨o2, e2, h2⟩ := hg
  cases e1 with
  | none => exact ⟨o1 ++ o2, e2, emits_andThen_ok h1 h2⟩
  | some e => exact ⟨o1, some e, emits_andThen_err h1⟩

theorem emits_unique {f : Encoder (List Byte) → Step (List Byte)}
    {o1 o2 : List Byte} {e1 e2 : Option Error} (h1 : Emits f o1 e1) (h2 : Emits f o2 e2) :
    o1 = o2 ∧ e1 = e2 := by
  have h := (h1 []).symm.trans (h2 [])
  simp [NewEncoder] at h
  exact h

theorem EncodeToBytes_of_emits {f : Encoder (List Byte) → Step (List Byte)}
    {out : List Byte} {err : Option Error} (h : Emits f out err) :
    EncodeToBytes f = match err with
      | some e => .error e
      | none => .ok out := by
  unfold EncodeToBytes
  rw [h []]
  cases err <;> simp [NewEncoder]

theorem emits_of_EncodeToBytes_ok {f : Encoder (List Byte) → Step (List Byte)}
    {b : List Byte} (hf : ∃ out err, Emits f out err) (h : EncodeToBytes f = .ok b) :
    Emits f b none := by
  obtain ⟨out, err, he⟩ := hf
  rw [EncodeToBytes_of_emits he] at h
  cases err with
  | none =>
    simp at h
    rw [← h]
    exact he
  | some e => simp at h

theorem emits_EncodeUintCompact (v : Nat) :
    ∃ out err, Emits (fun pe => pe.EncodeUintCompact v) out err := by
  unfold Encoder.EncodeUintCompact
  split_ifs
  · exact ⟨_, _, emits_PushByte _⟩
  · exact ⟨_, _, emits_Write _⟩
  · exact ⟨_, _, emits_Write _⟩
  · exact ⟨_, _, emits_andThen_ok (emits_PushByte _) (emits_Write _)⟩
  · exact ⟨_, _, emits_fail _⟩

theorem emits_EncodeUintCompact_ok (v : Nat) (hv : v < 256 ^ 67) :
    ∃ out, Emits (fun pe => pe.EncodeUintCompact v) out none := by
  unfold Encoder.EncodeUintCompact
  split_ifs
  · exact ⟨_, emits_PushByte _⟩
  · exact ⟨_, emits_Write _⟩
  · exact ⟨_, emits_Write _⟩
  · exact ⟨_, emits_andThen_ok (emits_PushByte _) (emits_Write _)⟩

theorem emits_UCompact (u : UCompact) : ∃ out err, Emits (UCompact.Encode u) out err :=
  emits_EncodeUintCompact u

theorem emits_U32 (u : U32) : ∃ out err, Emits (U32.Encode u) out err := by
  unfold U32.Encode Encoder.EncodeFixed
  split_ifs
  · exact ⟨_, _, emits_Write _⟩
  · exact ⟨_, _, emits_fail _⟩

theorem fixedLE_four (v : Nat) :
    fixedLE 4 v = [v % 256, v / 2 ^ 8 % 256, v / 2 ^ 16 % 256, v / 2 ^ 24 % 256] := by
  simp [fixedLE, Nat.div_div_eq_div_mul]

theorem emits_U32_ok (u : U32) (hu : u < 2 ^ 32) :
    Emits (U32.Encode u) [u % 256, u / 2 ^ 8 % 256, u / 2 ^ 16 % 256, u / 2 ^ 24 % 256]
      none := by
  have h : u < 256 ^ 4 := by norm_num at hu ⊢; exact hu
  rw [← fixedLE_four]
  unfold U32.Encode Encoder.EncodeFixed
  simp only [h, if_true]
  exact emits_Write _

theorem emits_Era (e : ExtrinsicEra) : ∃ out err, Emits e.Encode out err := by
  unfold ExtrinsicEra.Encode
  split_ifs
  · exact ⟨_, _, emits_PushByte _⟩
  · exact ⟨_, _, emits_andThen_ok (emits_PushByte _) (emits_PushByte _)⟩

theorem emits_FeeExchangeV1 (fe : FeeExchangeV1) : ∃ out err, Emits fe.Encode out err := by
  unfold FeeExchangeV1.Encode
  exact emits_andThen ⟨_, _, emits_PushByte 0⟩
    (emits_andThen (emits_UCompact fe.AssetId)
      (emits_andThen (emits_UCompact fe.MaxPayment) ⟨_, _, emits_done⟩))

theorem emits_EncodeOption (hasValue : Bool) {value : Encoder (List Byte) → Step (List Byte)}
    (hv : ∃ out err, Emits value out err) :
    ∃ out err, Emits (fun pe => pe.EncodeOption hasValue value) out err := by
  unfold Encoder.EncodeOption
  cases hasValue
  · exact ⟨_, _, emits_PushByte 0⟩
  · exact emits_andThen ⟨_, _, emits_PushByte 1⟩ hv

theorem emits_OptionFeeExchange (fe : OptionFeeExchange) :
    ∃ out err, Emits fe.Encode out err := by
  unfold OptionFeeExchange.Encode
  exact emits_andThen (emits_EncodeOption fe.HasValue (emits_FeeExchangeV1 fe.FeeExchange))
    ⟨_, _, emits_done⟩

theorem emits_TransactionPayment (tp : TransactionPayment) :
    ∃ out err, Emits tp.Encode out err := by
  unfold TransactionPayment.Encode
  exact emits_andThen (emits_UCompact tp.Tip)
    (emits_andThen (emits_OptionFeeExchange tp.FeeExchange) ⟨_, _, emits_done⟩)

/-- The fields after `Method`, as one step. -/
theorem emits_payload_tail (e : ExtrinsicPayloadV1) :
    ∃ out err, Emits (fun encoder =>
      andThen (e.Era.Encode encoder) fun encoder =>
      andThen (UCompact.Encode e.Nonce encoder) fun encoder =>
      andThen (e.TransactionPayment.Encode encoder) fun encoder =>
      andThen (U32.Encode e.SpecVersion encoder) fun encoder =>
      andThen (U32.Encode e.TransactionVersion encoder) fun encoder =>
      andThen (e.GenesisHash.Encode encoder) fun encoder =>
      andThen (e.BlockHash.Encode encoder) fun encoder =>
      (encoder, none)) out err :=
  emits_andThen (emits_Era e.Era)
    (emits_andThen (emits_UCompact e.Nonce)
      (emits_andThen (emits_TransactionPayment e.TransactionPayment)
        (emits_andThen (emits_U32 e.SpecVersion)
          (emits_andThen (emits_U32 e.TransactionVersion)
            (emits_andThen ⟨_, _, emits_Write e.GenesisHash.bytes⟩
              (emits_andThen ⟨_, _, emits_Write e.BlockHash.bytes⟩ ⟨_, _, emits_done⟩))))))

theorem emits_ExtrinsicPayloadV1 (e : ExtrinsicPayloadV1) :
    ∃ out err, Emits e.Encode out err := by
  unfold ExtrinsicPayloadV1.Encode
  exact emits_andThen ⟨_, _, emits_Write e.Method⟩ (emits_payload_tail e)

/-- The payload emits its `Method` bytes followed by what the same payload with an
empty `Method` emits, with the same outcome. -/
theorem emits_payload_split (e : ExtrinsicPayloadV1) :
    ∃ rest err, Emits e.Encode (e.Method ++ rest) err ∧
      Emits (ExtrinsicPayloadV1.Encode { e with Method := [] }) rest err := by
  obtain ⟨rest, err, h⟩ := emits_payload_tail e
  refine ⟨rest, err, ?_, ?_⟩
  · unfold ExtrinsicPayloadV1.Encode
    exact emits_andThen_ok (emits_Write e.Method) h
  · unfold ExtrinsicPayloadV1.Encode
    have h2 := emits_andThen_ok (emits_Write []) h
    simpa using h2

/-! ## The signing payload -/

/-- C1: when the era, the nonce, the payment metadata and the two versions encode
successfully, the payload encodes to exactly the Method bytes verbatim, then the era,
the compact nonce, the transaction payment, the four little-endian bytes of the spec
version, those of the transaction version, the genesis hash bytes and the block hash
bytes, in this order and with nothing else. -/
theorem payload_bytes_in_declared_order (p : ExtrinsicPayloadV1)
    (era nonce payment : List Byte)
    (hEra : EncodeToBytes p.Era.Encode = .ok era)
    (hNonce : EncodeToBytes (UCompact.Encode p.Nonce) = .ok nonce)
    (hPay : EncodeToBytes p.TransactionPayment.Encode = .ok payment)
    (hSpec : p.SpecVersion < 2 ^ 32) (hTx : p.TransactionVersion < 2 ^ 32) :
    EncodeToBytes p.Encode = .ok (p.Method ++ era ++ nonce ++ payment
      ++ [p.SpecVersion % 256, p.SpecVersion / 2 ^ 8 % 256,
          p.SpecVersion / 2 ^ 16 % 256, p.SpecVersion / 2 ^ 24 % 256]
      ++ [p.TransactionVersion % 256, p.TransactionVersion / 2 ^ 8 % 256,
          p.TransactionVersion / 2 ^ 16 % 256, p.TransactionVersion / 2 ^ 24 % 256]
      ++ p.GenesisHash.bytes ++ p.BlockHash.bytes) := by
  have h1 := emits_of_EncodeToBytes_ok (emits_Era p.Era) hEra
  have h2 := emits_of_EncodeToBytes_ok (emits_UCompact p.Nonce) hNonce
  have h3 := emits_of_EncodeToBytes_ok (emits_TransactionPayment p.TransactionPayment) hPay
  have h4 := emits_U32_ok p.SpecVersion hSpec
  have h5 := emits_U32_ok p.TransactionVersion hTx
  have h := emits_andThen_ok (emits_Write p.Method)
    (emits_andThen_ok h1 (emits_andThen_ok h2 (emits_andThen_ok h3
      (emits_andThen_ok h4 (emits_andThen_ok h5
        (emits_andThen_ok (emits_Write p.GenesisHash.bytes)
          (emits_andThen_ok (emits_Write p.BlockHash.bytes) emits_done)))))))
  have h6 : EncodeToBytes p.Encode = _ := EncodeToBytes_of_emits h
  rw [h6]
  simp only [List.append_assoc, List.append_nil]

/-- C1 at the fixture payload. -/
theorem payload_bytes_in_declared_order_witness :
    EncodeToBytes fixturePayload.Encode = .ok ([6, 0, 255, 142, 175] ++ [0] ++ [4] ++ [0, 0]
      ++ [36, 0, 0, 0] ++ [5, 0, 0, 0] ++ List.replicate 32 0 ++ List.replicate 32 0) :=
  payload_bytes_in_declared_order fixturePayload [0] [4] [0, 0] (by decide) (by decide)
    (by decide) (by decide) (by decide)

/-- C2: no length is written in front of the call: the payload encoding is the Method
bytes followed by the encoding of the same payload with an empty Method (with the same
outcome), so its first `len(Method)` bytes are the Method itself. -/
theorem payload_begins_with_bare_method (p : ExtrinsicPayloadV1) :
    EncodeToBytes p.Encode
        = Except.map (fun rest => p.Method ++ rest)
            (EncodeToBytes (ExtrinsicPayloadV1.Encode { p with Method := [] }))
      ∧ Except.map (List.take p.Method.length) (EncodeToBytes p.Encode)
        = Except.map (fun _ => p.Method) (EncodeToBytes p.Encode) := by
  obtain ⟨rest, err, h1, h2⟩ := emits_payload_split p
  rw [EncodeToBytes_of_emits h1, EncodeToBytes_of_emits h2]
  cases err <;> simp [Except.map]

/-- C3: `Decode` returns the "not supported" error for every receiver and every
decoder, never `nil`, and leaves both the decoder and the receiver as they were. -/
theorem decode_is_never_supported (e : ExtrinsicPayloadV1) (decoder : Decoder) :
    (e.Decode decoder).2 = some ⟨"decoding of ExtrinsicPayloadV1 is not supported"⟩
      ∧ (e.Decode decoder).2 ≠ none
      ∧ (e.Decode decoder).1.2 = decoder
      ∧ (e.Decode decoder).1.1 = e := by
  simp [ExtrinsicPayloadV1.Decode]

/-- C4: an absent fee exchange encodes to the single byte `0x00`, whatever the
`FeeExchange` field holds. -/
theorem absent_fee_exchange_is_one_zero_byte (fe : OptionFeeExchange)
    (h : fe.HasValue = false) : EncodeToBytes fe.Encode = .ok [0] := by
  have he : Emits fe.Encode ([0] ++ []) none := by
    unfold OptionFeeExchange.Encode Encoder.EncodeOption
    rw [h]
    exact emits_andThen_ok (emits_PushByte 0) emits_done
  rw [EncodeToBytes_of_emits he]
  rfl

/-- C4 at an absent fee exchange whose payload field is filled. -/
theorem absent_fee_exchange_is_one_zero_byte_witness :
    EncodeToBytes (OptionFeeExchange.Encode ⟨false, ⟨70, 1000000⟩⟩) = .ok [0] :=
  absent_fee_exchange_is_one_zero_byte ⟨false, ⟨70, 1000000⟩⟩ rfl

/-- C5 as stated fails: a present fee exchange with asset 0 and max payment 0 encodes
to four bytes `01 00 00 00`, not to `[0x01] ++ compact(0) ++ compact(0)`. -/
theorem present_fee_exchange_not_plain_concat :
    EncodeToBytes (UCompact.Encode 0) = .ok [0]
      ∧ EncodeToBytes (OptionFeeExchange.Encode ⟨true, ⟨0, 0⟩⟩) = .ok [1, 0, 0, 0]
      ∧ EncodeToBytes (OptionFeeExchange.Encode ⟨true, ⟨0, 0⟩⟩) ≠ .ok ([1] ++ [0] ++ [0]) := by
  decide

/-- C5 (amended): a present fee exchange encodes to the presence byte `0x01`, then the
byte `0x00` that `FeeExchangeV1.Encode` writes first, then the compact asset identifier
and the compact max payment. -/
theorem present_fee_exchange_bytes (fe : OptionFeeExchange) (asset maxPayment : List Byte)
    (h : fe.HasValue = true)
    (hAsset : EncodeToBytes (UCompact.Encode fe.FeeExchange.AssetId) = .ok asset)
    (hMax : EncodeToBytes (UCompact.Encode fe.FeeExchange.MaxPayment) = .ok maxPayment) :
    EncodeToBytes fe.Encode = .ok ([1] ++ [0] ++ asset ++ maxPayment) := by
  have h1 := emits_of_EncodeToBytes_ok (emits_UCompact _) hAsset
  have h2 := emits_of_EncodeToBytes_ok (emits_UCompact _) hMax
  have he : Emits fe.Encode ([1] ++ ([0] ++ (asset ++ (maxPayment ++ []))) ++ []) none := by
    unfold OptionFeeExchange.Encode Encoder.EncodeOption
    rw [h]
    simp only [if_true]
    unfold FeeExchangeV1.Encode
    exact emits_andThen_ok
      (emits_andThen_ok (emits_PushByte 1)
        (emits_andThen_ok (emits_PushByte 0)
          (emits_andThen_ok h1 (emits_andThen_ok h2 emits_done))))
      emits_done
  rw [EncodeToBytes_of_emits he]
  simp only [List.append_assoc, List.append_nil]

/-- C5 (amended) at asset 70 and max payment 2^30. -/
theorem present_fee_exchange_bytes_witness :
    EncodeToBytes (OptionFeeExchange.Encode ⟨true, ⟨70, 1073741824⟩⟩)
      = .ok ([1] ++ [0] ++ [25, 1] ++ [3, 0, 0, 0, 64]) :=
  present_fee_exchange_bytes ⟨true, ⟨70, 1073741824⟩⟩ [25, 1] [3, 0, 0, 0, 64] rfl
    (by decide) (by decide)

/-- C6: a transaction payment encodes to the compact tip immediately followed by the
encoding of the optional fee exchange, failing with the first error if one of the two
fails; a zero tip without fee exchange gives exactly the bytes `00 00`. -/
theorem transaction_payment_is_tip_then_fee_exchange (tp : TransactionPayment) :
    EncodeToBytes tp.Encode
        = Except.bind (EncodeToBytes (UCompact.Encode tp.Tip)) (fun tip =>
            Except.map (fun fee => tip ++ fee) (EncodeToBytes tp.FeeExchange.Encode))
      ∧ EncodeToBytes (TransactionPayment.Encode ⟨0, ⟨false, ⟨0, 0⟩⟩⟩) = .ok [0, 0] := by
  refine ⟨?_, by decide⟩
  obtain ⟨o1, e1, h1⟩ := emits_UCompact tp.Tip
  obtain ⟨o2, e2, h2⟩ := emits_OptionFeeExchange tp.FeeExchange
  rw [EncodeToBytes_of_emits h1, EncodeToBytes_of_emits h2]
  cases e1 with
  | some e =>
    have h : Emits tp.Encode o1 (some e) := by
      unfold TransactionPayment.Encode
      exact emits_andThen_err h1
    rw [EncodeToBytes_of_emits h]
    rfl
  | none =>
    cases e2 with
    | some e =>
      have h : Emits tp.Encode (o1 ++ o2) (some e) := by
        unfold TransactionPayment.Encode
        exact emits_andThen_ok h1 (emits_andThen_err h2)
      rw [EncodeToBytes_of_emits h]
      rfl
    | none =>
      have h : Emits tp.Encode (o1 ++ (o2 ++ [])) none := by
        unfold TransactionPayment.Encode
        exact emits_andThen_ok h1 (emits_andThen_ok h2 emits_done)
      rw [EncodeToBytes_of_emits h]
      simp [Except.bind, Except.map]

/-! ## Sign -/

theorem emits_EncodeBytes (b : List Byte) :
    ∃ out, Emits (fun pe => pe.EncodeBytes b) out none := by
  have hlt : b.length % 2 ^ 64 < 256 ^ 67 :=
    lt_trans (Nat.mod_lt _ (by norm_num)) (by norm_num)
  obtain ⟨o, ho⟩ := emits_EncodeUintCompact_ok _ hlt
  exact ⟨o ++ b, emits_andThen_ok ho (emits_Write b)⟩

/-- The diagnostic hex rendering of a byte slice always succeeds. -/
theorem EncodeToHexString_ok (b : List Byte) : ∃ hex, EncodeToHexString b = .ok hex := by
  obtain ⟨o, ho⟩ := emits_EncodeBytes b
  have h : EncodeToBytes (fun pe => pe.EncodeBytes b) = .ok o := EncodeToBytes_of_emits ho
  unfold EncodeToHexString
  rw [h]
  exact ⟨_, rfl⟩

/-- What `Sign` does once the payload has encoded to `b`. -/
theorem Sign_of_encoded (signatureSign : List Byte → String → List Byte × Option Error)
    (e : ExtrinsicPayloadV1) (k : KeyringPair) (b : List Byte)
    (hEnc : EncodeToBytes e.Encode = .ok b) :
    (e.Sign signatureSign k).1
        = .returned (NewSignature (signatureSign b k.URI).1) (signatureSign b k.URI).2
      ∧ signCalls (e.Sign signatureSign k).2 = [(b, k.URI)] := by
  obtain ⟨hex, hhex⟩ := EncodeToHexString_ok b
  unfold ExtrinsicPayloadV1.Sign
  rw [hEnc]
  simp only [hhex, signCalls, and_self]

/-- C7: when the payload encodes to `b` and the signing primitive succeeds on
`(b, k.URI)` with the raw signature `s`, `Sign` returns `NewSignature(s)` with a nil
error, having invoked the primitive exactly once, on exactly `b` and `k.URI`. -/
theorem sign_signs_exactly_the_payload_bytes
    (signatureSign : List Byte → String → List Byte × Option Error)
    (e : ExtrinsicPayloadV1) (k : KeyringPair) (b s : List Byte)
    (hEnc : EncodeToBytes e.Encode = .ok b)
    (hSig : signatureSign b k.URI = (s, none)) :
    (e.Sign signatureSign k).1 = .returned (NewSignature s) none
      ∧ signCalls (e.Sign signatureSign k).2 = [(b, k.URI)] := by
  have h := Sign_of_encoded signatureSign e k b hEnc
  rw [hSig] at h
  exact h

/-- C7 at the fixture payload, signed for `//Alice`. -/
theorem sign_signs_exactly_the_payload_bytes_witness :
    (fixturePayload.Sign constSigner aliceKey).1
        = .returned (NewSignature (List.replicate 64 7)) none
      ∧ signCalls (fixturePayload.Sign constSigner aliceKey).2
        = [([6, 0, 255, 142, 175, 0, 4, 0, 0, 36, 0, 0, 0, 5, 0, 0, 0]
              ++ List.replicate 64 0, aliceKey.URI)] :=
  sign_signs_exactly_the_payload_bytes constSigner fixturePayload aliceKey
    ([6, 0, 255, 142, 175, 0, 4, 0, 0, 36, 0, 0, 0, 5, 0, 0, 0] ++ List.replicate 64 0)
    (List.replicate 64 7) (by decide) rfl

/-- C8: when the payload encodes to `b` and the signing primitive fails on
`(b, k.URI)` with `err`, `Sign` returns exactly `err` as its error, and the primitive
has been invoked once only. -/
theorem sign_passes_primitive_error_through
    (signatureSign : List Byte → String → List Byte × Option Error)
    (e : ExtrinsicPayloadV1) (k : KeyringPair) (b s : List Byte) (err : Error)
    (hEnc : EncodeToBytes e.Encode = .ok b)
    (hSig : signatureSign b k.URI = (s, some err)) :
    (e.Sign signatureSign k).1 = .returned (NewSignature s) (some err)
      ∧ signCalls (e.Sign signatureSign k).2 = [(b, k.URI)] := by
  have h := Sign_of_encoded signatureSign e k b hEnc
  rw [hSig] at h
  exact h

/-- C8 at the fixture payload with a primitive that rejects the key material. -/
theorem sign_passes_primitive_error_through_witness :
    (fixturePayload.Sign failingSigner aliceKey).1
        = .returned (NewSignature []) (some ⟨"invalid derivation path"⟩)
      ∧ signCalls (fixturePayload.Sign failingSigner aliceKey).2
        = [([6, 0, 255, 142, 175, 0, 4, 0, 0, 36, 0, 0, 0, 5, 0, 0, 0]
              ++ List.replicate 64 0, aliceKey.URI)] :=
  sign_passes_primitive_error_through failingSigner fixturePayload aliceKey
    ([6, 0, 255, 142, 175, 0, 4, 0, 0, 36, 0, 0, 0, 5, 0, 0, 0] ++ List.replicate 64 0)
    [] ⟨"invalid derivation path"⟩ (by decide) rfl

/-! ## Relational properties -/

/-- C9: two payloads that agree on every field but Method, whose Methods have the
same length and differ in exactly one byte (position `i`), have different signing
inputs: when one encodes to `bp`, the encoding of the other is not that of the first. -/
theorem one_call_byte_changes_signing_input (p q : ExtrinsicPayloadV1) (bp : List Byte)
    (i : Nat)
    (hEra : p.Era = q.Era) (hNonce : p.Nonce = q.Nonce)
    (hPay : p.TransactionPayment = q.TransactionPayment)
    (hSpec : p.SpecVersion = q.SpecVersion)
    (hTx : p.TransactionVersion = q.TransactionVersion)
    (hGen : p.GenesisHash = q.GenesisHash) (hBlock : p.BlockHash = q.BlockHash)
    (hLen : p.Method.length = q.Method.length)
    (hi : i < p.Method.length)
    (hDiff : p.Method[i]? ≠ q.Method[i]?)
    (hSame : ∀ j, j ≠ i → p.Method[j]? = q.Method[j]?)
    (hp : EncodeToBytes p.Encode = .ok bp) :
    EncodeToBytes q.Encode ≠ EncodeToBytes p.Encode := by
  have hpq : ({ p with Method := [] } : ExtrinsicPayloadV1) = { q with Method := [] } := by
    cases p
    cases q
    simp at hEra hNonce hPay hSpec hTx hGen hBlock
    simp [hEra, hNonce, hPay, hSpec, hTx, hGen, hBlock]
  obtain ⟨rp, ep, hp1, hp2⟩ := emits_payload_split p
  obtain ⟨rq, eq, hq1, hq2⟩ := emits_payload_split q
  rw [hpq] at hp2
  obtain ⟨hr, he⟩ := emits_unique hp2 hq2
  subst hr
  subst he
  rw [EncodeToBytes_of_emits hp1] at hp ⊢
  rw [EncodeToBytes_of_emits hq1]
  cases ep with
  | some e => simp at hp
  | none =>
    intro h
    simp only [Except.ok.injEq] at h
    have hm : q.Method = p.Method := List.append_cancel_right h
    exact hDiff (by rw [hm])

/-- C9 at the fixture payload and the same payload with `0x8e` changed to `0x8f`. -/
theorem one_call_byte_changes_signing_input_witness :
    EncodeToBytes fixturePayloadAltered.Encode ≠ EncodeToBytes fixturePayload.Encode :=
  one_call_byte_changes_signing_input fixturePayload fixturePayloadAltered
    ([6, 0, 255, 142, 175, 0, 4, 0, 0, 36, 0, 0, 0, 5, 0, 0, 0] ++ List.replicate 64 0) 3
    rfl rfl rfl rfl rfl rfl rfl rfl (by decide) (by decide)
    (by
      intro j hj
      match j, hj with
      | 0, _ => rfl
      | 1, _ => rfl
      | 2, _ => rfl
      | 3, h => exact absurd rfl h
      | 4, _ => rfl
      | _ + 5, _ => rfl)
    (by decide)

/-! ## The signed extrinsic -/

theorem emits_Address (tags : Discriminants) (a : Address) :
    ∃ out err, Emits (a.Encode tags) out err := by
  unfold Address.Encode
  split_ifs
  · exact ⟨_, _, emits_andThen_ok (emits_PushByte _) (emits_Write _)⟩
  · exact emits_andThen ⟨_, _, emits_PushByte _⟩ (emits_EncodeUintCompact _)

theorem emits_MultiSignature (tags : Discriminants) (m : MultiSignature) :
    ∃ out err, Emits (m.Encode tags) out err := by
  unfold MultiSignature.Encode
  split_ifs
  · exact ⟨_, _, emits_andThen_ok (emits_PushByte _) (emits_Write _)⟩
  · exact ⟨_, _, emits_fail _⟩

theorem emits_Call (c : Call) :
    Emits c.Encode ([c.CallIndex.SectionIndex] ++ ([c.CallIndex.MethodIndex] ++ c.Args))
      none := by
  unfold Call.Encode
  exact emits_andThen_ok (emits_PushByte _) (emits_andThen_ok (emits_PushByte _) (emits_Write _))

/-- The extrinsic, once its parts before the length is put in front encode to `body`,
emits the compact length of `body` and then `body`. -/
theorem emits_Extrinsic_of_body (tags : Discriminants) (e : Extrinsic)
    (body len : List Byte)
    (hBody : EncodeToBytes (e.encodeBody tags) = .ok body)
    (hLen : EncodeToBytes (UCompact.Encode body.length) = .ok len) :
    Emits (e.Encode tags) (len ++ body) none := by
  have h1 := emits_of_EncodeToBytes_ok (emits_UCompact _) hLen
  intro pre
  unfold Extrinsic.Encode
  simp only [hBody]
  exact emits_andThen_ok h1 (emits_Write body) pre

/-- C11: when the address, the signature, the era, the nonce and the payment metadata
of a signed extrinsic encode successfully, and so does the compact length, the bytes
handed to submission are the compact total length, the version byte, the address, the
signature, the era, the compact nonce, the payment metadata and the call, where the
total length counts everything after the length itself. For the fixture the era is the
byte `00`, the nonce the byte `04` and the payment metadata the bytes `00 00`. -/
theorem signed_extrinsic_wire_format (tags : Discriminants) (e : Extrinsic)
    (totalLen address signature era nonce payment call : List Byte)
    (hAddr : EncodeToBytes (e.Signature.Signer.Encode tags) = .ok address)
    (hSig : EncodeToBytes (e.Signature.Signature.Encode tags) = .ok signature)
    (hEra : EncodeToBytes e.Signature.Era.Encode = .ok era)
    (hNonce : EncodeToBytes (UCompact.Encode e.Signature.Nonce) = .ok nonce)
    (hPay : EncodeToBytes e.Signature.TransactionPayment.Encode = .ok payment)
    (hCall : EncodeToBytes e.Method.Encode = .ok call)
    (hLen : EncodeToBytes (UCompact.Encode
        ([e.Version] ++ address ++ signature ++ era ++ nonce ++ payment ++ call).length)
        = .ok totalLen) :
    EncodeToBytes (e.Encode tags)
        = .ok (totalLen ++ [e.Version] ++ address ++ signature ++ era ++ nonce ++ payment
            ++ call)
      ∧ call = [e.Method.CallIndex.SectionIndex, e.Method.CallIndex.MethodIndex]
          ++ e.Method.Args
      ∧ EncodeToBytes fixtureExtrinsic.Signature.Era.Encode = .ok [0]
      ∧ EncodeToBytes (UCompact.Encode fixtureExtrinsic.Signature.Nonce) = .ok [4]
      ∧ EncodeToBytes fixtureExtrinsic.Signature.TransactionPayment.Encode = .ok [0, 0] := by
  have h1 := emits_of_EncodeToBytes_ok (emits_Address tags _) hAddr
  have h2 := emits_of_EncodeToBytes_ok (emits_MultiSignature tags _) hSig
  have h3 := emits_of_EncodeToBytes_ok (emits_Era _) hEra
  have h4 := emits_of_EncodeToBytes_ok (emits_UCompact _) hNonce
  have h5 := emits_of_EncodeToBytes_ok (emits_TransactionPayment _) hPay
  have h6 := emits_of_EncodeToBytes_ok ⟨_, _, emits_Call e.Method⟩ hCall
  have hc : call = [e.Method.CallIndex.SectionIndex, e.Method.CallIndex.MethodIndex]
      ++ e.Method.Args := by
    have h := (emits_unique h6 (emits_Call e.Method)).1
    simpa using h
  have hs : Emits (e.Signature.Encode tags)
      (address ++ (signature ++ (era ++ (nonce ++ (payment ++ []))))) none := by
    unfold ExtrinsicSignatureV1.Encode
    exact emits_andThen_ok h1 (emits_andThen_ok h2 (emits_andThen_ok h3
      (emits_andThen_ok h4 (emits_andThen_ok h5 emits_done))))
  have hb : Emits (e.encodeBody tags)
      ([e.Version] ++ address ++ signature ++ era ++ nonce ++ payment ++ call) none := by
    have h := emits_andThen_ok (emits_PushByte e.Version)
      (emits_andThen_ok hs (emits_andThen_ok h6 emits_done))
    simp only [List.append_assoc, List.append_nil] at h
    simp only [List.append_assoc]
    exact h
  have hBody : EncodeToBytes (e.encodeBody tags) = .ok _ := EncodeToBytes_of_emits hb
  have hx := emits_Extrinsic_of_body tags e _ totalLen hBody hLen
  have hfinal : EncodeToBytes (e.Encode tags) = .ok _ := EncodeToBytes_of_emits hx
  refine ⟨?_, hc, by decide, by decide, by decide⟩
  rw [hfinal]
  simp only [List.append_assoc]

set_option maxRecDepth 8192 in
/-- C11 at the extrinsic of `TestAuthor_SubmitExtrinsic`: 140 bytes behind the two
length bytes `31 02`. -/
theorem signed_extrinsic_wire_format_witness :
    EncodeToBytes (fixtureExtrinsic.Encode sampleTags)
        = .ok ([49, 2] ++ [132]
            ++ (255 :: fixtureExtrinsic.Signature.Signer.AsAccountID)
            ++ (1 :: fixtureExtrinsic.Signature.Signature.AsSr25519)
            ++ [0] ++ [4] ++ [0, 0]
            ++ (6 :: 0 :: fixtureExtrinsic.Method.Args)) :=
  (signed_extrinsic_wire_format sampleTags fixtureExtrinsic [49, 2]
    (255 :: fixtureExtrinsic.Signature.Signer.AsAccountID)
    (1 :: fixtureExtrinsic.Signature.Signature.AsSr25519)
    [0] [4] [0, 0] (6 :: 0 :: fixtureExtrinsic.Method.Args)
    rfl rfl rfl rfl rfl rfl rfl).1

/-! ## Error propagation -/

theorem andThen_done {W : Type} (r : Step W) : andThen r (fun encoder => (encoder, none)) = r := by
  obtain ⟨enc, err⟩ := r
  cases err <;> rfl

theorem andThen_of_error {W : Type} (r : Step W) (rest : Encoder W → Step W) (err : Error)
    (h : r.2 = some err) : andThen r rest = (r.1, some err) := by
  unfold andThen
  rw [h]

theorem andThen_of_ok {W : Type} (r : Step W) (rest : Encoder W → Step W)
    (h : r.2 = none) : andThen r rest = rest r.1 := by
  unfold andThen
  rw [h]

/-- C12: on any writer, `FeeExchangeV1.Encode` stops at the first failing step and
returns its error, leaving the encoder as that step left it: a failed push of the
leading byte is followed by no encoding of AssetId or MaxPayment, a failed AssetId by
no encoding of MaxPayment; it returns nil exactly when the three steps succeed; and
`OptionFeeExchange.Encode` returns exactly what the option encoding returns. -/
theorem fee_exchange_encode_halts_on_first_error {W : Type} (fe : FeeExchangeV1)
    (ofe : OptionFeeExchange) (encoder : Encoder W) :
    (∀ err, (encoder.PushByte 0).2 = some err →
        fe.Encode encoder = ((encoder.PushByte 0).1, some err))
      ∧ (∀ err, (encoder.PushByte 0).2 = none →
          (UCompact.Encode fe.AssetId (encoder.PushByte 0).1).2 = some err →
          fe.Encode encoder = ((UCompact.Encode fe.AssetId (encoder.PushByte 0).1).1, some err))
      ∧ (∀ err, (encoder.PushByte 0).2 = none →
          (UCompact.Encode fe.AssetId (encoder.PushByte 0).1).2 = none →
          (UCompact.Encode fe.MaxPayment
            (UCompact.Encode fe.AssetId (encoder.PushByte 0).1).1).2 = some err →
          fe.Encode encoder
            = ((UCompact.Encode fe.MaxPayment
                (UCompact.Encode fe.AssetId (encoder.PushByte 0).1).1).1, some err))
      ∧ ((fe.Encode encoder).2 = none ↔
          (encoder.PushByte 0).2 = none
            ∧ (UCompact.Encode fe.AssetId (encoder.PushByte 0).1).2 = none
            ∧ (UCompact.Encode fe.MaxPayment
                (UCompact.Encode fe.AssetId (encoder.PushByte 0).1).1).2 = none)
      ∧ ofe.Encode encoder = encoder.EncodeOption ofe.HasValue ofe.FeeExchange.Encode := by
  refine ⟨?_, ?_, ?_, ?_, ?_⟩
  · intro err h
    unfold FeeExchangeV1.Encode
    exact andThen_of_error _ _ err h
  · intro err h0 h1
    unfold FeeExchangeV1.Encode
    rw [andThen_of_ok _ _ h0]
    exact andThen_of_error _ _ err h1
  · intro err h0 h1 h2
    unfold FeeExchangeV1.Encode
    rw [andThen_of_ok _ _ h0, andThen_of_ok _ _ h1]
    exact andThen_of_error _ _ err h2
  · unfold FeeExchangeV1.Encode
    cases h0 : (encoder.PushByte 0).2 with
    | some e0 => simp [andThen_of_error _ _ e0 h0]
    | none =>
      rw [andThen_of_ok _ _ h0]
      cases h1 : (UCompact.Encode fe.AssetId (encoder.PushByte 0).1).2 with
      | some e1 => simp [andThen_of_error _ _ e1 h1]
      | none =>
        rw [andThen_of_ok _ _ h1]
        cases h2 : (UCompact.Encode fe.MaxPayment
            (UCompact.Encode fe.AssetId (encoder.PushByte 0).1).1).2 with
        | some e2 => simp [andThen_of_error _ _ e2 h2]
        | none => simp [andThen_of_ok _ _ h2]
  · unfold OptionFeeExchange.Encode
    exact andThen_done _

/-- C12 on writers that record their writes: one refusing every write sees the leading
byte only, one refusing the second write sees the leading byte and the asset
identifier, and neither sees the max payment. -/
theorem fee_exchange_encode_halts_on_first_error_witness :
    FeeExchangeV1.Encode ⟨70, 5⟩ (⟨failAfter 0, []⟩ : Encoder (List (List Byte)))
        = (⟨failAfter 0, [[0]]⟩, some ⟨"short write"⟩)
      ∧ FeeExchangeV1.Encode ⟨70, 5⟩ (⟨failAfter 1, []⟩ : Encoder (List (List Byte)))
        = (⟨failAfter 1, [[0], [25, 1]]⟩, some ⟨"short write"⟩) :=
  ⟨(fee_exchange_encode_halts_on_first_error ⟨70, 5⟩ ⟨false, ⟨0, 0⟩⟩
      (⟨failAfter 0, []⟩ : Encoder (List (List Byte)))).1 ⟨"short write"⟩ rfl,
   (fee_exchange_encode_halts_on_first_error ⟨70, 5⟩ ⟨false, ⟨0, 0⟩⟩
      (⟨failAfter 1, []⟩ : Encoder (List (List Byte)))).2.1 ⟨"short write"⟩ rfl rfl⟩

/-- C13: when the payload fails to encode with `err`, `Sign` returns the all-zero
64-byte signature together with exactly `err`, prints nothing and never invokes the
signing primitive. -/
theorem sign_returns_encode_error
    (signatureSign : List Byte → String → List Byte × Option Error)
    (e : ExtrinsicPayloadV1) (k : KeyringPair) (err : Error)
    (hEnc : EncodeToBytes e.Encode = .error err) :
    e.Sign signatureSign k = (.returned (List.replicate 64 0) (some err), [])
      ∧ signCalls (e.Sign signatureSign k).2 = [] := by
  unfold ExtrinsicPayloadV1.Sign
  rw [hEnc]
  exact ⟨rfl, rfl⟩

/-- C13 at a payload whose nonce overflows the compact encoding. -/
theorem sign_returns_encode_error_witness :
    overflowPayload.Sign constSigner aliceKey
        = (.returned (List.replicate 64 0) (some ⟨"EncodeOverflow"⟩), [])
      ∧ signCalls (overflowPayload.Sign constSigner aliceKey).2 = [] :=
  sign_returns_encode_error constSigner overflowPayload aliceKey ⟨"EncodeOverflow"⟩
    (by decide)

end Gsrpc
